import Mathlib

/-!
# Verification of the `algae` linear-algebra library

Shallow embedding of `src/vector.rs` and `src/matrix.rs`.

Rust fixed-size arrays `[T; N]` built with `core::array::from_fn` are
modelled as functions `Fin N → T`.  A Rust slice is modelled as `List T`,
and a slice access `arr[ind]` that may panic is modelled with an explicit
bound check: an operation that can panic is `Option`-valued, `none`
standing for the panic.
-/

namespace Algae

/-- `TVector<T, N>` from `vector.rs`: `pub data: [T ; N]`. -/
structure TVector (T : Type) (N : Nat) where
  data : Fin N → T

/-- `TMatrix<T, M, N>` from `matrix.rs`: `pub data: [[T ; M] ; N]`
(column-major: the outer index ranges over the `N` columns, the inner
over the `M` rows). -/
structure TMatrix (T : Type) (M N : Nat) where
  data : Fin N → Fin M → T

namespace TVector

variable {T : Type} {N : Nat}

/-- `TVector::<T, 2>::new`. -/
def new2 (e0 e1 : T) : TVector T 2 :=
  ⟨![e0, e1]⟩

/-- `TVector::<T, 3>::new`. -/
def new3 (e0 e1 e2 : T) : TVector T 3 :=
  ⟨![e0, e1, e2]⟩

/-- `TVector::<T, 4>::new`. -/
def new4 (e0 e1 e2 e3 : T) : TVector T 4 :=
  ⟨![e0, e1, e2, e3]⟩

/-- `element_wise` from `vector.rs`:
`data: from_fn(|i| f(a.data[i], b.data[i]))`. -/
def element_wise (f : T → T → T) (a b : TVector T N) : TVector T N :=
  ⟨fun i => f (a.data i) (b.data i)⟩

/-- `Add for TVector`: `element_wise(self, other, |a, b| a + b)`. -/
def add [Add T] (a b : TVector T N) : TVector T N :=
  element_wise (fun x y => x + y) a b

/-- `Sub for TVector`: `element_wise(self, other, |a, b| a - b)`. -/
def sub [Sub T] (a b : TVector T N) : TVector T N :=
  element_wise (fun x y => x - y) a b

/-- `Mul for TVector` (element-wise): `element_wise(self, other, |a, b| a * b)`. -/
def mul [Mul T] (a b : TVector T N) : TVector T N :=
  element_wise (fun x y => x * y) a b

/-- `Div for TVector` (element-wise): `element_wise(self, other, |a, b| a / b)`. -/
def div [Div T] (a b : TVector T N) : TVector T N :=
  element_wise (fun x y => x / y) a b

/-- `Zero for TVector`, method `zero()`: `data: [T::zero(); N]`. -/
def zero [Zero T] : TVector T N :=
  ⟨fun _ => 0⟩

/-- `Zero for TVector`, method `is_zero()`:
`self.data.iter().all(|a| a.is_zero())`. -/
def is_zero [Zero T] [DecidableEq T] (v : TVector T N) : Bool :=
  (List.ofFn v.data).all (fun a => decide (a = 0))

/-- `Index<usize> for TVector`: `&self.data[ind]`.  The array access
panics when `ind ≥ N`; the panic is modelled as `none`. -/
def index (v : TVector T N) (ind : Nat) : Option T :=
  if h : ind < N then some (v.data ⟨ind, h⟩) else none

end TVector

namespace TMatrix

variable {T : Type} {L M N : Nat}

/-- `TMatrix::<T, 2, 2>::new`: `data: [[e0, e2], [e1, e3]]`. -/
def new2 (e0 e1 e2 e3 : T) : TMatrix T 2 2 :=
  ⟨![![e0, e2],
     ![e1, e3]]⟩

/-- `TMatrix::<T, 3, 3>::new`:
`data: [[e0, e3, e6], [e1, e4, e7], [e2, e5, e8]]`. -/
def new3 (e0 e1 e2 e3 e4 e5 e6 e7 e8 : T) : TMatrix T 3 3 :=
  ⟨![![e0, e3, e6],
     ![e1, e4, e7],
     ![e2, e5, e8]]⟩

/-- `TMatrix::<T, 4, 4>::new`:
`data: [[e0, e4, e8, e12], …, [e3, e7, e11, e15]]`. -/
def new4 (e0 e1 e2 e3 e4 e5 e6 e7 e8 e9 e10 e11 e12 e13 e14 e15 : T) :
    TMatrix T 4 4 :=
  ⟨![![e0, e4, e8, e12],
     ![e1, e5, e9, e13],
     ![e2, e6, e10, e14],
     ![e3, e7, e11, e15]]⟩

/-- `TMatrix::from_array`:
`data: from_fn(|i| from_fn(|j| { let ind = j * N + i; arr[ind] }))`.
Each slice access `arr[ind]` panics when `ind` is out of bounds; the
whole construction is `none` when any of the accesses would panic. -/
def from_array (arr : List T) : Option (TMatrix T M N) :=
  if h : ∀ (i : Fin N) (j : Fin M), (j : Nat) * N + (i : Nat) < arr.length then
    some ⟨fun i j => arr.get ⟨(j : Nat) * N + (i : Nat), h i j⟩⟩
  else
    none

/-- `element_wise` from `matrix.rs`:
`data: from_fn(|i| from_fn(|j| f(a.data[i][j], b.data[i][j])))`. -/
def element_wise (f : T → T → T) (a b : TMatrix T M N) : TMatrix T M N :=
  ⟨fun i j => f (a.data i j) (b.data i j)⟩

/-- `Add for TMatrix`: `element_wise(self, other, |a, b| a + b)`. -/
def add [Add T] (a b : TMatrix T M N) : TMatrix T M N :=
  element_wise (fun x y => x + y) a b

/-- `Sub for TMatrix`: `element_wise(self, other, |a, b| a - b)`. -/
def sub [Sub T] (a b : TMatrix T M N) : TMatrix T M N :=
  element_wise (fun x y => x - y) a b

/-- `Index<(usize, usize)> for TMatrix`: `&self.data[ind0][ind1]`.
The outer access needs `ind0 < N`, the inner `ind1 < M`; an
out-of-bounds access panics, modelled as `none`. -/
def index (m : TMatrix T M N) (ind0 ind1 : Nat) : Option T :=
  if h0 : ind0 < N then
    if h1 : ind1 < M then some (m.data ⟨ind0, h0⟩ ⟨ind1, h1⟩) else none
  else
    none

/-- `Mul<TVector<T, N>> for TMatrix<T, M, N>`:
`data: from_fn(|i| from_fn::<T, N, _>(|j| self.data[j][i] * other.data[j]).iter().cloned().sum())`. -/
def mul_vec [Zero T] [Add T] [Mul T] (m : TMatrix T M N) (other : TVector T N) :
    TVector T M :=
  ⟨fun i => (List.ofFn fun j : Fin N => m.data j i * other.data j).sum⟩

/-- `Mul<TMatrix<T, M, N>> for TMatrix<T, L, M>`:
`data: from_fn(|i| from_fn::<T, L, _>(|j| from_fn::<T, M, _>(|k| self.data[k][j] * other.data[i][k]).iter().cloned().sum()))`. -/
def mul_mat [Zero T] [Add T] [Mul T] (m : TMatrix T L M) (other : TMatrix T M N) :
    TMatrix T L N :=
  ⟨fun i j => (List.ofFn fun k : Fin M => m.data k j * other.data i k).sum⟩

end TMatrix

/-! ### Basic extensionality helpers -/

theorem vector_ext_data {T : Type} {N : Nat} {a b : TVector T N}
    (h : ∀ i, a.data i = b.data i) : a = b := by
  cases a
  cases b
  simp only [TVector.mk.injEq]
  funext i
  exact h i

theorem matrix_ext_data {T : Type} {M N : Nat} {a b : TMatrix T M N}
    (h : ∀ i j, a.data i j = b.data i j) : a = b := by
  cases a
  cases b
  simp only [TMatrix.mk.injEq]
  funext i j
  exact h i j

/-! ### Characterisation of `from_array` -/

/-- The guard of `from_array` — every access `arr[j*N + i]` in bounds —
holds exactly when the slice has at least `M * N` elements. -/
theorem index_bound_iff {M N len : Nat} :
    (∀ (i : Fin N) (j : Fin M), (j : Nat) * N + (i : Nat) < len) ↔ M * N ≤ len := by
  constructor
  · intro h
    rcases Nat.eq_zero_or_pos N with hN | hN
    · simp [hN]
    rcases Nat.eq_zero_or_pos M with hM | hM
    · simp [hM]
    have hkey := h ⟨N - 1, by omega⟩ ⟨M - 1, by omega⟩
    simp only at hkey
    have hsub : (M - 1) * N = M * N - 1 * N := Nat.sub_mul M 1 N
    have hle : N ≤ M * N := Nat.le_mul_of_pos_left N hM
    omega
  · intro h i j
    have hi := i.isLt
    have hsucc : ((j : Nat) + 1) * N = (j : Nat) * N + N := Nat.succ_mul _ _
    have h2 : ((j : Nat) + 1) * N ≤ M * N := Nat.mul_le_mul_right N j.isLt
    omega

/-- On success, `from_array` puts slice element `j*N + i` at `data[i][j]`. -/
theorem TMatrix.from_array_data {T : Type} {M N : Nat} {arr : List T} {m : TMatrix T M N}
    (hm : TMatrix.from_array arr = some m) (i : Fin N) (j : Fin M) :
    ∃ h : (j : Nat) * N + (i : Nat) < arr.length,
      m.data i j = arr.get ⟨(j : Nat) * N + (i : Nat), h⟩ := by
  unfold TMatrix.from_array at hm
  by_cases h : ∀ (i : Fin N) (j : Fin M), (j : Nat) * N + (i : Nat) < arr.length
  · rw [dif_pos h] at hm
    refine ⟨h i j, ?_⟩
    cases hm
    rfl
  · rw [dif_neg h] at hm
    simp at hm

/-- `from_array` succeeds exactly on slices of length at least `M * N`. -/
theorem TMatrix.from_array_isSome_iff {T : Type} {M N : Nat} (arr : List T) :
    (TMatrix.from_array (T := T) (M := M) (N := N) arr).isSome = true ↔
      M * N ≤ arr.length := by
  rw [← @index_bound_iff M N arr.length]
  unfold TMatrix.from_array
  by_cases h : ∀ (i : Fin N) (j : Fin M), (j : Nat) * N + (i : Nat) < arr.length
  · rw [dif_pos h]
    simpa using h
  · rw [dif_neg h]
    simpa using h

/-- `from_array` panics exactly on slices shorter than `M * N`. -/
theorem TMatrix.from_array_eq_none_iff {T : Type} {M N : Nat} (arr : List T) :
    TMatrix.from_array (T := T) (M := M) (N := N) arr = none ↔ arr.length < M * N := by
  rw [← Option.not_isSome_iff_eq_none]
  rw [TMatrix.from_array_isSome_iff]
  omega

/-- `from_array` only looks at the first `M * N` slice elements. -/
theorem TMatrix.from_array_take {T : Type} {M N : Nat} (arr : List T) :
    TMatrix.from_array (T := T) (M := M) (N := N) arr
      = TMatrix.from_array (arr.take (M * N)) := by
  by_cases h : M * N ≤ arr.length
  · have h1 : ∀ (i : Fin N) (j : Fin M), (j : Nat) * N + (i : Nat) < arr.length :=
      index_bound_iff.mpr h
    have h2 : ∀ (i : Fin N) (j : Fin M),
        (j : Nat) * N + (i : Nat) < (arr.take (M * N)).length := by
      rw [index_bound_iff, List.length_take]
      omega
    unfold TMatrix.from_array
    rw [dif_pos h1, dif_pos h2]
    simp only [Option.some.injEq]
    apply matrix_ext_data
    intro i j
    simp [List.get_eq_getElem, List.getElem_take]
  · have h1 : TMatrix.from_array (T := T) (M := M) (N := N) arr = none := by
      rw [TMatrix.from_array_eq_none_iff]
      omega
    have h2 : TMatrix.from_array (T := T) (M := M) (N := N) (arr.take (M * N)) = none := by
      rw [TMatrix.from_array_eq_none_iff, List.length_take]
      omega
    rw [h1, h2]

/-- The concrete 2×2 matrix of `from_array [1,2,3,4]` is `new2 1 2 3 4`. -/
theorem TMatrix.from_array_one_two_three_four :
    TMatrix.from_array (T := Int) (M := 2) (N := 2) [1, 2, 3, 4]
      = some (TMatrix.new2 1 2 3 4) := by
  unfold TMatrix.from_array
  rw [dif_pos (by decide)]
  congr 1
  apply matrix_ext_data
  intro i j
  fin_cases i <;> fin_cases j <;> rfl

/-! ### Claim theorems -/

/-- C1, counterexample: on the 2×2 matrix built by `from_array [1,2,3,4]`
the tuple index operator returns `data[ind0][ind1]`, so `m[(0,1)]` is 3,
not 2 as the claim (reading the operator as row-then-column) states. -/
theorem C1_counterexample :
    (TMatrix.from_array (T := Int) (M := 2) (N := 2) [1, 2, 3, 4]).bind
        (fun m => m.index 0 1) = some 3
    ∧ (TMatrix.from_array (T := Int) (M := 2) (N := 2) [1, 2, 3, 4]).bind
        (fun m => m.index 0 1) ≠ some 2 := by
  constructor <;> decide

/-- C1 (amended): the tuple index operator `m[(a, b)]` returns the element
stored physically at `data[a][b]`, i.e. the logical element at row `b`,
column `a`; for a matrix built by `from_array` this is the row-major input
element number `b*N + a`.  In particular the 2×2 matrix built via
`from_array [1,2,3,4]` satisfies `m[(0,0)] = 1`, `m[(0,1)] = 3`,
`m[(1,0)] = 2`, `m[(1,1)] = 4`. -/
theorem C1_index_amended :
    (∀ (T : Type) (M N : Nat) (arr : List T) (m : TMatrix T M N),
        TMatrix.from_array arr = some m →
        ∀ (a b : Nat), a < N → b < M →
          ∃ h : b * N + a < arr.length,
            m.index a b = some (arr.get ⟨b * N + a, h⟩))
    ∧ ((TMatrix.from_array (T := Int) (M := 2) (N := 2) [1, 2, 3, 4]).bind
          (fun m => m.index 0 0) = some 1
       ∧ (TMatrix.from_array (T := Int) (M := 2) (N := 2) [1, 2, 3, 4]).bind
          (fun m => m.index 0 1) = some 3
       ∧ (TMatrix.from_array (T := Int) (M := 2) (N := 2) [1, 2, 3, 4]).bind
          (fun m => m.index 1 0) = some 2
       ∧ (TMatrix.from_array (T := Int) (M := 2) (N := 2) [1, 2, 3, 4]).bind
          (fun m => m.index 1 1) = some 4) := by
  constructor
  · intro T M N arr m hm a b ha hb
    obtain ⟨h, hdata⟩ := TMatrix.from_array_data hm ⟨a, ha⟩ ⟨b, hb⟩
    refine ⟨h, ?_⟩
    unfold TMatrix.index
    rw [dif_pos ha, dif_pos hb]
    rw [hdata]
  · refine ⟨by decide, by decide, by decide, by decide⟩

/-- C1 witness: the amended index law applied at the concrete 2×2 input. -/
theorem C1_index_amended_witness :
    ∃ h : 1 * 2 + 0 < ([1, 2, 3, 4] : List Int).length,
      (TMatrix.new2 (T := Int) 1 2 3 4).index 0 1
        = some (([1, 2, 3, 4] : List Int).get ⟨1 * 2 + 0, h⟩) :=
  C1_index_amended.1 Int 2 2 [1, 2, 3, 4] (TMatrix.new2 1 2 3 4)
    TMatrix.from_array_one_two_three_four 0 1 (by decide) (by decide)

/-- C4: every constructor places row-major input value number `r*N + c`
at physical storage `data[c][r]`: the 2×2, 3×3 and 4×4 `new` constructors
and, for arbitrary `M`, `N`, `from_array`. -/
theorem C4_constructors_row_major :
    (∀ (T : Type) (e0 e1 e2 e3 : T) (r c : Fin 2),
        (TMatrix.new2 e0 e1 e2 e3).data c r
          = [e0, e1, e2, e3].getD ((r : Nat) * 2 + (c : Nat)) e0)
    ∧ (∀ (T : Type) (e0 e1 e2 e3 e4 e5 e6 e7 e8 : T) (r c : Fin 3),
        (TMatrix.new3 e0 e1 e2 e3 e4 e5 e6 e7 e8).data c r
          = [e0, e1, e2, e3, e4, e5, e6, e7, e8].getD ((r : Nat) * 3 + (c : Nat)) e0)
    ∧ (∀ (T : Type) (e0 e1 e2 e3 e4 e5 e6 e7 e8 e9 e10 e11 e12 e13 e14 e15 : T)
        (r c : Fin 4),
        (TMatrix.new4 e0 e1 e2 e3 e4 e5 e6 e7 e8 e9 e10 e11 e12 e13 e14 e15).data c r
          = [e0, e1, e2, e3, e4, e5, e6, e7, e8, e9, e10, e11, e12, e13, e14,
             e15].getD ((r : Nat) * 4 + (c : Nat)) e0)
    ∧ (∀ (T : Type) (M N : Nat) (arr : List T) (m : TMatrix T M N),
        TMatrix.from_array arr = some m →
        ∀ (r : Fin M) (c : Fin N),
          ∃ h : (r : Nat) * N + (c : Nat) < arr.length,
            m.data c r = arr.get ⟨(r : Nat) * N + (c : Nat), h⟩) := by
  refine ⟨?_, ?_, ?_, ?_⟩
  · intro T e0 e1 e2 e3 r c
    fin_cases r <;> fin_cases c <;> rfl
  · intro T e0 e1 e2 e3 e4 e5 e6 e7 e8 r c
    fin_cases r <;> fin_cases c <;> rfl
  · intro T e0 e1 e2 e3 e4 e5 e6 e7 e8 e9 e10 e11 e12 e13 e14 e15 r c
    fin_cases r <;> fin_cases c <;> rfl
  · intro T M N arr m hm r c
    exact TMatrix.from_array_data hm c r

/-- C4 witness: the `from_array` placement law at the concrete 2×2 input. -/
theorem C4_constructors_row_major_witness :
    ∃ h : ((1 : Fin 2) : Nat) * 2 + ((0 : Fin 2) : Nat) < ([1, 2, 3, 4] : List Int).length,
      (TMatrix.new2 (T := Int) 1 2 3 4).data 0 1
        = ([1, 2, 3, 4] : List Int).get
            ⟨((1 : Fin 2) : Nat) * 2 + ((0 : Fin 2) : Nat), h⟩ :=
  C4_constructors_row_major.2.2.2 Int 2 2 [1, 2, 3, 4] (TMatrix.new2 1 2 3 4)
    TMatrix.from_array_one_two_three_four 1 0

/-- C10: `TMatrix::<T, M, N>::from_array(arr)` traps exactly when `arr` has
fewer than `M*N` elements; with at least `M*N` elements it succeeds, and the
result only depends on the first `M*N` elements of `arr`. -/
theorem C10_from_array_trap_iff :
    (∀ (T : Type) (M N : Nat) (arr : List T),
        TMatrix.from_array (T := T) (M := M) (N := N) arr = none ↔
          arr.length < M * N)
    ∧ (∀ (T : Type) (M N : Nat) (arr : List T), M * N ≤ arr.length →
        (TMatrix.from_array (T := T) (M := M) (N := N) arr).isSome = true)
    ∧ (∀ (T : Type) (M N : Nat) (arr : List T),
        TMatrix.from_array (T := T) (M := M) (N := N) arr
          = TMatrix.from_array (arr.take (M * N))) := by
  refine ⟨?_, ?_, ?_⟩
  · intro T M N arr
    exact TMatrix.from_array_eq_none_iff arr
  · intro T M N arr h
    exact (TMatrix.from_array_isSome_iff arr).mpr h
  · intro T M N arr
    exact TMatrix.from_array_take arr

/-- C10 witness: the success half applied at a concrete slice. -/
theorem C10_from_array_trap_iff_witness :
    (TMatrix.from_array (T := Int) (M := 2) (N := 2) [1, 2, 3, 4]).isSome = true :=
  C10_from_array_trap_iff.2.1 Int 2 2 [1, 2, 3, 4] (by decide)

/-- C2: `A * v` for an M×N matrix and a length-N vector is the length-M
vector of dot products of A's logical rows with v — `(A*v)[i] = Σ_j A(i,j)*v[j]`
with `A(i,j) = data[j][i]`; concretely
`Mat2::new(1,2,3,4) * Vec2::new(5,6) = Vec2::new(17,39)`. -/
theorem C2_matvec_row_dot :
    (∀ (T : Type) [AddCommMonoid T] [Mul T] (M N : Nat)
        (A : TMatrix T M N) (v : TVector T N) (i : Fin M),
        (A.mul_vec v).data i = ∑ j : Fin N, A.data j i * v.data j)
    ∧ TMatrix.mul_vec (TMatrix.new2 (T := Int) 1 2 3 4) (TVector.new2 5 6)
        = TVector.new2 17 39 := by
  constructor
  · intro T _ _ M N A v i
    simp [TMatrix.mul_vec, List.sum_ofFn]
  · apply vector_ext_data
    intro i
    fin_cases i <;> decide

/-- C3: `A * B` for an L×M and an M×N matrix is the standard matrix product:
the logical (row i, col j) element, stored at `data[j][i]`, is
`Σ_k A(i,k) * B(k,j)`; concretely, `Mat2::new(1,2,3,4) * Mat2::new(5,6,7,8)`
satisfies, under the tuple index operator, `m2[(0,0)] = 19`, `m2[(0,1)] = 43`,
`m2[(1,0)] = 22`, `m2[(1,1)] = 50`. -/
theorem C3_matmul_standard_product :
    (∀ (T : Type) [AddCommMonoid T] [Mul T] (L M N : Nat)
        (A : TMatrix T L M) (B : TMatrix T M N) (i : Fin L) (j : Fin N),
        (A.mul_mat B).data j i = ∑ k : Fin M, A.data k i * B.data j k)
    ∧ ((TMatrix.new2 (T := Int) 1 2 3 4).mul_mat (TMatrix.new2 5 6 7 8)).index 0 0
        = some 19
    ∧ ((TMatrix.new2 (T := Int) 1 2 3 4).mul_mat (TMatrix.new2 5 6 7 8)).index 0 1
        = some 43
    ∧ ((TMatrix.new2 (T := Int) 1 2 3 4).mul_mat (TMatrix.new2 5 6 7 8)).index 1 0
        = some 22
    ∧ ((TMatrix.new2 (T := Int) 1 2 3 4).mul_mat (TMatrix.new2 5 6 7 8)).index 1 1
        = some 50 := by
  refine ⟨?_, by decide, by decide, by decide, by decide⟩
  intro T _ _ L M N A B i j
  simp [TMatrix.mul_mat, List.sum_ofFn]

/-- C5: the four element-wise vector operators each combine equal-length
vectors position by position: for every in-bounds index i,
`(a+b)[i] = a[i]+b[i]`, `(a-b)[i] = a[i]-b[i]`, `(a*b)[i] = a[i]*b[i]`,
`(a/b)[i] = a[i]/b[i]`, the result again a length-N vector. -/
theorem C5_vector_elementwise_ops :
    ∀ (T : Type) [Add T] [Sub T] [Mul T] [Div T] (N : Nat)
      (a b : TVector T N) (i : Nat) (h : i < N),
      (TVector.add a b).index i = some (a.data ⟨i, h⟩ + b.data ⟨i, h⟩)
      ∧ (TVector.sub a b).index i = some (a.data ⟨i, h⟩ - b.data ⟨i, h⟩)
      ∧ (TVector.mul a b).index i = some (a.data ⟨i, h⟩ * b.data ⟨i, h⟩)
      ∧ (TVector.div a b).index i = some (a.data ⟨i, h⟩ / b.data ⟨i, h⟩) := by
  intro T _ _ _ _ N a b i h
  refine ⟨?_, ?_, ?_, ?_⟩ <;>
    simp [TVector.add, TVector.sub, TVector.mul, TVector.div,
      TVector.element_wise, TVector.index, dif_pos h]

/-- C5 witness: the addition law at index 0 of two concrete length-2 vectors. -/
theorem C5_vector_elementwise_ops_witness :
    (TVector.add (TVector.new2 (T := Int) 1 2) (TVector.new2 4 5)).index 0
      = some ((TVector.new2 (T := Int) 1 2).data ⟨0, by decide⟩
          + (TVector.new2 (T := Int) 4 5).data ⟨0, by decide⟩) :=
  (C5_vector_elementwise_ops Int 2 (TVector.new2 1 2) (TVector.new2 4 5) 0
    (by decide)).1

/-- C6: shapes are fixed by the types, so no operation fails on malformed
data; the only partial operations are the accessors, and each succeeds
exactly when the accessed position is in bounds: vector indexing iff
`i < N`, matrix indexing iff both components are in range, `from_array`
iff the slice has at least `M*N` elements. -/
theorem C6_no_runtime_shape_failures :
    (∀ (T : Type) (N : Nat) (v : TVector T N) (i : Nat),
        (v.index i).isSome = true ↔ i < N)
    ∧ (∀ (T : Type) (M N : Nat) (m : TMatrix T M N) (a b : Nat),
        (m.index a b).isSome = true ↔ a < N ∧ b < M)
    ∧ (∀ (T : Type) (M N : Nat) (arr : List T),
        (TMatrix.from_array (T := T) (M := M) (N := N) arr).isSome = true ↔
          M * N ≤ arr.length) := by
  refine ⟨?_, ?_, ?_⟩
  · intro T N v i
    unfold TVector.index
    by_cases h : i < N
    · simp [dif_pos h, h]
    · simp [dif_neg h, h]
  · intro T M N m a b
    unfold TMatrix.index
    by_cases h0 : a < N
    · by_cases h1 : b < M
      · simp [dif_pos h0, dif_pos h1, h0, h1]
      · simp [dif_pos h0, dif_neg h1, h0, h1]
    · simp [dif_neg h0, h0]
  · intro T M N arr
    exact TMatrix.from_array_isSome_iff arr

/-- C7: out-of-bounds indexing is the trap (`none`, the model of the Rust
panic), never a recoverable value, and in-bounds indexing returns the stored
element: `v[i] = data[i]` for `i < N`, `m[(a,b)] = data[a][b]` for `a < N`,
`b < M`, and `none` otherwise. -/
theorem C7_index_trap_contract :
    (∀ (T : Type) (N : Nat) (v : TVector T N) (i : Nat) (h : i < N),
        v.index i = some (v.data ⟨i, h⟩))
    ∧ (∀ (T : Type) (N : Nat) (v : TVector T N) (i : Nat), N ≤ i → v.index i = none)
    ∧ (∀ (T : Type) (M N : Nat) (m : TMatrix T M N) (a b : Nat)
        (ha : a < N) (hb : b < M),
        m.index a b = some (m.data ⟨a, ha⟩ ⟨b, hb⟩))
    ∧ (∀ (T : Type) (M N : Nat) (m : TMatrix T M N) (a b : Nat),
        N ≤ a ∨ M ≤ b → m.index a b = none) := by
  refine ⟨?_, ?_, ?_, ?_⟩
  · intro T N v i h
    simp [TVector.index, dif_pos h]
  · intro T N v i h
    simp [TVector.index, Nat.not_lt.mpr h]
  · intro T M N m a b ha hb
    simp [TMatrix.index, dif_pos ha, dif_pos hb]
  · intro T M N m a b h
    rcases h with h | h
    · simp [TMatrix.index, Nat.not_lt.mpr h]
    · unfold TMatrix.index
      by_cases h0 : a < N
      · simp [dif_pos h0, Nat.not_lt.mpr h]
      · simp [dif_neg h0]

/-- C7 witness: in-bounds and out-of-bounds vector indexing at concrete
inputs. -/
theorem C7_index_trap_contract_witness :
    (TVector.new2 (T := Int) 5 6).index 0
      = some ((TVector.new2 (T := Int) 5 6).data ⟨0, by decide⟩) ∧
    (TVector.new2 (T := Int) 5 6).index 7 = none :=
  ⟨C7_index_trap_contract.1 Int 2 (TVector.new2 5 6) 0 (by decide),
   C7_index_trap_contract.2.1 Int 2 (TVector.new2 5 6) 7 (by decide)⟩

/-- C8: `zero()` fills the vector with the additive identity, `is_zero`
holds iff every element is the additive identity, and `zero().is_zero()`
always holds. -/
theorem C8_zero_vector :
    ∀ (T : Type) [Zero T] [DecidableEq T] (N : Nat),
      (∀ i : Fin N, (TVector.zero (T := T) (N := N)).data i = 0)
      ∧ (∀ v : TVector T N, TVector.is_zero v = true ↔ ∀ i, v.data i = 0)
      ∧ TVector.is_zero (TVector.zero (T := T) (N := N)) = true := by
  intro T _ _ N
  have hiff : ∀ v : TVector T N, TVector.is_zero v = true ↔ ∀ i, v.data i = 0 := by
    intro v
    rw [TVector.is_zero, List.all_eq_true]
    simp [List.forall_mem_ofFn_iff]
  exact ⟨fun i => rfl, hiff, (hiff _).mpr (fun i => rfl)⟩

/-- C9: over a scalar type whose subtraction exactly inverts its addition,
`(a + b) - b = a` element-wise for same-length vectors and same-shape
matrices. -/
theorem C9_add_sub_cancel :
    ∀ (T : Type) [Add T] [Sub T],
      (∀ x y : T, x + y - y = x) →
      (∀ (N : Nat) (a b : TVector T N), TVector.sub (TVector.add a b) b = a)
      ∧ (∀ (M N : Nat) (a b : TMatrix T M N), TMatrix.sub (TMatrix.add a b) b = a) := by
  intro T _ _ hcancel
  constructor
  · intro N a b
    apply vector_ext_data
    intro i
    exact hcancel _ _
  · intro M N a b
    apply matrix_ext_data
    intro i j
    exact hcancel _ _

/-- C9 witness: the cancellation law over the integers at concrete vectors. -/
theorem C9_add_sub_cancel_witness :
    TVector.sub (TVector.add (TVector.new2 (T := Int) 1 2) (TVector.new2 4 5))
        (TVector.new2 4 5) = TVector.new2 1 2 :=
  (C9_add_sub_cancel Int (fun x y => add_sub_cancel_right x y)).1 2
    (TVector.new2 1 2) (TVector.new2 4 5)

end Algae
